import Mathlib

/-!
Verification development for the CopyUrlsChrome extension.

Strings of the JavaScript source are modelled as `List Char`; each
definition below embeds one function of `src/background.js` or of the
offscreen helper document, keeping the source's names where Lean allows.
-/

set_option maxRecDepth 4096

namespace CopyUrlsChrome

/-! ## JavaScript string primitives -/

/-- Whitespace characters recognized by JavaScript `String.prototype.trim`
(the ASCII whitespace range plus NBSP and the BOM — the code points that can
occur in the texts this extension handles). -/
def isJsWhitespace (c : Char) : Bool :=
  c = ' ' || c = '\t' || c = '\n' || c = '\r' ||
  c = Char.ofNat 0x0B || c = Char.ofNat 0x0C ||
  c = Char.ofNat 0xA0 || c = Char.ofNat 0xFEFF

/-- JavaScript `str.trim()`: remove leading and trailing whitespace. -/
def jsTrim (s : List Char) : List Char :=
  ((s.dropWhile isJsWhitespace).reverse.dropWhile isJsWhitespace).reverse

/-- The source's `trim(str)` helper (`background.js` line 53): for a string
argument, `str ? str.trim() : ''` agrees with `str.trim()` (the falsy string
is `''`, which trims to itself). -/
def trim (s : List Char) : List Char := jsTrim s

/-- JavaScript `str.split("\n")`: cut at every newline; a string with `n`
newlines yields `n + 1` segments, and `"".split("\n")` is `[""]`. -/
def splitNl : List Char → List (List Char)
  | [] => [[]]
  | c :: cs =>
    if c = '\n' then [] :: splitNl cs
    else
      match splitNl cs with
      | [] => [[c]]
      | p :: ps => (c :: p) :: ps

/-! ## Tab descriptors and the Tab Formatter (`CopyTo.text`) -/

/-- A snapshot of a browser tab, as consumed by the background script. -/
structure TabDesc where
  url : List Char
  title : List Char
  windowId : Int
  highlighted : Bool
deriving DecidableEq

/-- Spec-side helper: concatenation of a list of strings in order. -/
def concatAll : List (List Char) → List Char
  | [] => []
  | l :: ls => l ++ concatAll ls

namespace CopyTo

/-- `CopyTo.text` (`background.js` lines 276–282): the loop
`for i: s += tabs[i].url + '\n'` accumulating from the empty string. -/
def text (tabs : List TabDesc) : List Char :=
  tabs.foldl (fun s t => s ++ (t.url ++ ['\n'])) []

end CopyTo

/-! ## Basic lemmas about the primitives -/

lemma copyTo_text_foldl (tabs : List TabDesc) :
    ∀ a : List Char,
      tabs.foldl (fun s t => s ++ (t.url ++ ['\n'])) a
        = a ++ concatAll (tabs.map fun t => t.url ++ ['\n']) := by
  induction tabs with
  | nil => intro a; simp [concatAll]
  | cons t ts ih =>
    intro a
    simp only [List.foldl_cons, List.map_cons, concatAll, ih, List.append_assoc]

lemma copyTo_text_eq (tabs : List TabDesc) :
    CopyTo.text tabs = concatAll (tabs.map fun t => t.url ++ ['\n']) := by
  simpa using copyTo_text_foldl tabs []

lemma copyTo_text_cons (t : TabDesc) (ts : List TabDesc) :
    CopyTo.text (t :: ts) = t.url ++ '\n' :: CopyTo.text ts := by
  rw [copyTo_text_eq, copyTo_text_eq]
  simp [concatAll]

lemma splitNl_ne_nil (s : List Char) : splitNl s ≠ [] := by
  cases s with
  | nil => simp [splitNl]
  | cons c cs =>
    simp only [splitNl]
    split
    · simp
    · split <;> simp

lemma splitNl_append (u : List Char) (hu : '\n' ∉ u) :
    ∀ {s : List Char} {p : List Char} {ps : List (List Char)},
      splitNl s = p :: ps → splitNl (u ++ s) = (u ++ p) :: ps := by
  induction u with
  | nil => intro s p ps h; simpa using h
  | cons c cs ih =>
    intro s p ps h
    have hc : c ≠ '\n' := by
      intro hEq; exact hu (by simp [hEq])
    have hcs : '\n' ∉ cs := fun hmem => hu (by simp [hmem])
    have ih' := ih hcs h
    simp only [List.cons_append, splitNl, if_neg hc]
    rw [show cs.append s = cs ++ s from rfl, ih']

/-! ## The HTML anchor pattern of the paste loop

`background.js` line 234 runs `val.match(new RegExp('<a[^>]+href="([^"]+)"', 'i'))`
on each segment and, when a match exists, replaces the segment with the first
capture group. The matcher below reproduces that regular expression:
leftmost starting position wins; at a starting position the greedy `[^>]+`
backtracks from its longest extent. -/

/-- Case-insensitive character comparison (the regex `i` flag). -/
def lowerEq (a b : Char) : Bool := a.toLower = b.toLower

/-- Case-insensitive "the pattern is an initial segment of the text". -/
def startsWithCI : List Char → List Char → Bool
  | [], _ => true
  | _ :: _, [] => false
  | p :: ps, t :: ts => lowerEq p t && startsWithCI ps ts

/-- The literal `href="` of the anchor pattern. -/
def hrefLit : List Char := ['h', 'r', 'e', 'f', '=', '"']

/-- After `<a`, try `[^>]+` of length `k, k-1, …, 1` (greedy with
backtracking): the part after the gap must start with `href="`, and the
capture `([^"]+)` must be non-empty and closed by a quote. `rest` is the text
following `<a`; the caller passes `k` = length of the longest run of
non-`>` characters. -/
def tryAnchorTail (rest : List Char) : Nat → Option (List Char)
  | 0 => none
  | Nat.succ k =>
    if startsWithCI hrefLit (rest.drop (k + 1)) then
      let after := rest.drop (k + 1 + 6)
      let cap := after.takeWhile (fun c => c ≠ '"')
      if cap.isEmpty then tryAnchorTail rest k
      else if (after.drop cap.length).isEmpty then tryAnchorTail rest k
      else some cap
    else tryAnchorTail rest k

/-- Try the anchor pattern anchored at the head of `s`. -/
def matchAnchorAt (s : List Char) : Option (List Char) :=
  match s with
  | a :: b :: rest =>
    if a = '<' && (b = 'a' || b = 'A') then
      tryAnchorTail rest ((rest.takeWhile (fun c => c ≠ '>')).length)
    else none
  | _ => none

/-- `val.match(/<a[^>]+href="([^"]+)"/i)` restricted to the first capture
group: the leftmost position at which the pattern matches wins. -/
def findAnchorHref : List Char → Option (List Char)
  | [] => none
  | c :: cs =>
    match matchAnchorAt (c :: cs) with
    | some cap => some cap
    | none => findAnchorHref cs

/-- One iteration of the paste loop's `$.each` body (`background.js`
lines 233–244): replace an HTML anchor segment by its captured URL, then
trim. -/
def processSegment (seg : List Char) : List Char :=
  match findAnchorHref seg with
  | some url => trim url
  | none => trim seg

/-- The LineSplit extraction pipeline of `Action.paste`
(`background.js` lines 223, 233–249): split on newlines, unwrap anchors,
trim, drop segments that became empty. -/
def lineSplitExtract (s : List Char) : List (List Char) :=
  ((splitNl s).map processSegment).filter (fun u => !u.isEmpty)

/-- Spec-side pipeline: the non-empty trimmed lines of the text, in order. -/
def nonEmptyTrimmedLines (s : List Char) : List (List Char) :=
  ((splitNl s).map jsTrim).filter (fun u => !u.isEmpty)

/-- A text contains no HTML anchor when the anchor pattern matches none of
its lines. -/
def noAnchorText (s : List Char) : Bool :=
  (splitNl s).all (fun seg => (findAnchorHref seg).isNone)

/-! ## The intelligent-paste URL regex

`background.js` line 221:
`clipboardString.match(/(https?|ftp|ssh|mailto):\/\/[a-z0-9\/:%_+.,#?!@&=-]+/gi)`.
The global flag returns every non-overlapping match, scanning left to
right; the alternation is tried in order `https`, `http`, `ftp`, `ssh`,
`mailto` (the greedy `s?` first), and the character class is greedy. -/

/-- The character class `[a-z0-9\/:%_+.,#?!@&=-]` under the `i` flag. -/
def urlChar (c : Char) : Bool :=
  ('a' ≤ c.toLower && c.toLower ≤ 'z') ||
  ('0' ≤ c && c ≤ '9') ||
  ['/', ':', '%', '_', '+', '.', ',', '#', '?', '!', '@', '&', '=', '-'].contains c

/-- The literal `://` following the scheme alternation. -/
def schemeSep : List Char := [':', '/', '/']

/-- The scheme alternatives in the regex engine's trial order. -/
def schemeAlts : List (List Char) :=
  ["https".toList, "http".toList, "ftp".toList, "ssh".toList, "mailto".toList]

/-- Try one scheme alternative at the head of `s`: the scheme, `://`, then a
non-empty greedy run of permitted URL characters. Returns the matched text
(in its original case). -/
def tryScheme (s sch : List Char) : Option (List Char) :=
  if startsWithCI (sch ++ schemeSep) s then
    let run := (s.drop (sch.length + 3)).takeWhile urlChar
    if run.isEmpty then none
    else some (s.take (sch.length + 3) ++ run)
  else none

/-- Try the URL pattern anchored at the head of `s`, alternatives in regex
order. -/
def matchUrlAt (s : List Char) : Option (List Char) :=
  match tryScheme s "https".toList with
  | some m => some m
  | none =>
    match tryScheme s "http".toList with
    | some m => some m
    | none =>
      match tryScheme s "ftp".toList with
      | some m => some m
      | none =>
        match tryScheme s "ssh".toList with
        | some m => some m
        | none => tryScheme s "mailto".toList

/-- Left-to-right scan emitting non-overlapping matches. Fuel-indexed for
structural recursion; every emitted match is a non-empty prefix of the
remaining text, so `fuel = s.length` always suffices. -/
def regexScan : Nat → List Char → List (List Char)
  | 0, _ => []
  | Nat.succ fuel, s =>
    (matchUrlAt s).elim
      (match s with
       | [] => []
       | _ :: cs => regexScan fuel cs)
      (fun m => m :: regexScan fuel (s.drop m.length))

/-- `clipboardString.match(/(https?|ftp|ssh|mailto):\/\/[...]+/gi)`, as the
(possibly empty) list of matches; `Action.paste` maps the empty list back to
the `null` the JavaScript call returns. -/
def regexExtract (s : List Char) : List (List Char) :=
  regexScan s.length s

/-- Spec-side shape of a URL-pattern match: some scheme alternative followed
by `://` and a non-empty tail of permitted URL characters. -/
def matchesUrlPattern (m : List Char) : Bool :=
  schemeAlts.any (fun sch =>
    startsWithCI (sch ++ schemeSep) m &&
    !((m.drop (sch.length + 3)).isEmpty) &&
    (m.drop (sch.length + 3)).all urlChar)

/-- `m` occurs contiguously inside `s`. -/
def SubstringOf (m s : List Char) : Prop :=
  ∃ pre post, s = pre ++ m ++ post

/-! ## Clipboard write substitution

`Clipboard.write` (`background.js` lines 71–74) replaces an empty or
undefined string by the placeholder `<empty>` before relaying it to the
helper; the helper's `writeToClipboard` (offscreen script lines 42–44)
applies the same substitution to a falsy `text`. `none` stands for the
JavaScript `undefined`. -/

/-- The substitution step of `Clipboard.write`:
`if (str === '' || str === undefined) str = '<empty>'`. -/
def clipboardWriteText : Option (List Char) → List Char
  | none => "<empty>".toList
  | some s => if s.isEmpty then "<empty>".toList else s

/-- The substitution step of the helper's `writeToClipboard`:
`if (!text) text = '<empty>'`. -/
def writeToClipboardText : Option (List Char) → List Char
  | none => "<empty>".toList
  | some s => if s.isEmpty then "<empty>".toList else s

/-! ## The Relay Supervisor actions -/

/-- The value `Action.paste` resolves to, together with the tab-creation
requests it issued (`chrome.tabs.create({url: val})` per surviving URL). -/
structure PasteOutcome where
  count : Nat
  errorMsg : Option String
  opened : List (List Char)
deriving DecidableEq

namespace Action

/-- `Action.paste` (`background.js` lines 210–268), as a function of the
clipboard text the helper returned and of `opt.message.intelligent === true`.
JavaScript `match` with the `g` flag returns `null` when there is no match
(modelled by `none`), while `split` always returns an array, so the
`if (!urlList)` early exit fires only in the intelligent branch. -/
def paste (intelligent : Bool) (clipboardString : List Char) : PasteOutcome :=
  let urlList : Option (List (List Char)) :=
    if intelligent then
      let ms := regexExtract clipboardString
      if ms.isEmpty then none else some ms
    else
      some (splitNl clipboardString)
  match urlList with
  | none =>
    { count := 0, errorMsg := some "No URL found in the clipboard", opened := [] }
  | some list =>
    let processed := (list.map processSegment).filter (fun u => !u.isEmpty)
    { count := processed.length, errorMsg := none, opened := processed }

end Action

/-- Truthiness of `opt.window && opt.window.id`: a window reference with a
zero id is falsy in JavaScript. -/
def windowIdTruthy : Option Int → Bool
  | none => false
  | some w => decide (w ≠ 0)

/-- Everything `Action.copy` produces: the record it returns synchronously,
and the effects of the `chrome.tabs.query` callback. -/
structure CopyOutcome where
  /-- The `count` field of the object `Action.copy` returns. -/
  returnedCount : Nat
  /-- The query passed to `chrome.tabs.query` (`none` = no window
  restriction). -/
  tabQuery : Option Int
  /-- `tabs_filtered`, the tabs the callback formats. -/
  formattedTabs : List TabDesc
  /-- The text relayed to the helper by `Clipboard.write`. -/
  clipboardMessageText : List Char
  /-- The `copied_url` field of the `{type:"copy"}` runtime message. -/
  copiedUrlMessage : Nat
deriving DecidableEq

namespace Action

/-- `Action.copy` (`background.js` lines 151–203), as a function of the
message's optional `allWindows` field, the resolved window id, and the
snapshot of open tabs that `chrome.tabs.query` answers from.

`chrome.tabs.query` delivers its result asynchronously: the callback body
(lines 170–196) runs only after `Action.copy` has already executed
`return { count: tabCount }` on line 202, so the returned record reads the
initial value of `tabCount` from line 152, which is `0`. -/
def copy (allWindowsField : Option Bool) (window : Option Int)
    (allTabs : List TabDesc) : CopyOutcome :=
  let tabCount : Nat := 0
  let getAllWindows : Bool :=
    match allWindowsField with
    | none => true
    | some b => b
  let tabQuery : Option Int :=
    if !getAllWindows && windowIdTruthy window then window else none
  -- what `chrome.tabs.query` answers for this query:
  let tabs : List TabDesc :=
    match tabQuery with
    | none => allTabs
    | some w => allTabs.filter (fun t => decide (t.windowId = w))
  -- callback body: `highlighted_tab_only` is the constant false
  let tabs_filtered := tabs
  let outputText := CopyTo.text tabs_filtered
  { returnedCount := tabCount
    tabQuery := tabQuery
    formattedTabs := tabs_filtered
    clipboardMessageText := clipboardWriteText (some outputText)
    copiedUrlMessage := tabs_filtered.length }

end Action

/-! ## Helper lifecycle (`createOffscreenDocumentIfNeeded`) -/

/-- Whether an offscreen helper document is alive. The host environment
allows at most one offscreen document, so the context enumeration returns
either zero or one context; sequential calls never observe an intermediate
state. -/
inductive HelperLifecycle where
  | Absent
  | Ready
deriving DecidableEq

/-- What one call to the ensure-ready operation did. -/
structure EnsureOutcome where
  state : HelperLifecycle
  createdCalled : Bool
deriving DecidableEq

/-- `createOffscreenDocumentIfNeeded` (`background.js` lines 118–139):
enumerate the offscreen contexts; when one exists, return without creating;
otherwise create the document. -/
def createOffscreenDocumentIfNeeded : HelperLifecycle → EnsureOutcome
  | HelperLifecycle.Ready => { state := HelperLifecycle.Ready, createdCalled := false }
  | HelperLifecycle.Absent => { state := HelperLifecycle.Ready, createdCalled := true }

/-- Number of live helper instances in a lifecycle state. -/
def liveHelperCount : HelperLifecycle → Nat
  | HelperLifecycle.Absent => 0
  | HelperLifecycle.Ready => 1

/-! ## The offscreen helper document (`writeToClipboard`) -/

/-- The value of `document.oncopy`: absent, a handler installed by other
code (abstract id), or the closure `writeToClipboard` installs, which
captures `text` and `extendedMime`. -/
inductive CopyHandlerV where
  | noHandler
  | hostHandler (id : Nat)
  | relayHandler (text : List Char) (extendedMime : Option Bool)
deriving DecidableEq

/-- The helper document's state: its `oncopy` handler, the hidden buffer
textarea, and the system clipboard (plain text plus optional `text/html`
flavor). -/
structure OffscreenDoc where
  oncopy : CopyHandlerV
  bufferValue : List Char
  clipPlain : List Char
  clipHtml : Option (List Char)
deriving DecidableEq

/-- `document.execCommand('copy')`: fires the current `oncopy` handler. The
relay handler returns immediately unless `extendedMime === true` — leaving
the default path to copy the selected buffer — and otherwise prevents the
default and publishes both MIME flavors of its captured text. -/
def execCommandCopy (doc : OffscreenDoc) : OffscreenDoc :=
  match doc.oncopy with
  | CopyHandlerV.relayHandler text em =>
    if em = some true then
      { doc with clipPlain := text, clipHtml := some text }
    else
      { doc with clipPlain := doc.bufferValue, clipHtml := none }
  | _ => { doc with clipPlain := doc.bufferValue, clipHtml := none }

/-- `writeToClipboard(text, extendedMime)` of the offscreen script
(lines 42–62): substitute the placeholder for a falsy text, fill and select
the buffer, back up `document.oncopy`, install the relay handler, run the
copy command, and restore the backup. -/
def writeToClipboard (text0 : Option (List Char)) (extendedMime : Option Bool)
    (doc : OffscreenDoc) : OffscreenDoc :=
  let text := writeToClipboardText text0
  let doc1 : OffscreenDoc := { doc with bufferValue := text }
  let oncopyBackup := doc1.oncopy
  let doc2 : OffscreenDoc :=
    { doc1 with oncopy := CopyHandlerV.relayHandler text extendedMime }
  let doc3 := execCommandCopy doc2
  { doc3 with oncopy := oncopyBackup }

/-! ## Supporting lemmas -/

lemma list_isEmpty_false_of_ne_nil {α : Type} {l : List α} (h : l ≠ []) :
    l.isEmpty = false := by
  cases l with
  | nil => exact absurd rfl h
  | cons a as => rfl

lemma list_ne_nil_of_isEmpty_false {α : Type} {l : List α}
    (h : l.isEmpty = false) : l ≠ [] := by
  cases l with
  | nil => simp [List.isEmpty] at h
  | cons a as => simp

/-! ## Claim theorems -/

/-- C3: `CopyTo.text` equals the concatenation, in input order, of
`tabs[i].url` followed by a newline for each element, and on the empty
sequence it yields the empty string; as a Lean function it is pure and
deterministic. -/
theorem C3_copyTo_text_concat (tabs : List TabDesc) :
    CopyTo.text tabs = concatAll (tabs.map fun t => t.url ++ ['\n']) ∧
    CopyTo.text [] = ([] : List Char) :=
  ⟨copyTo_text_eq tabs, rfl⟩

/-- C7: the ensure-ready operation is idempotent — from any lifecycle state,
two sequential calls leave exactly one live helper, the second call performs
no creation, and a call made while a helper exists never invokes the
creation primitive. -/
theorem C7_ensure_idempotent (s : HelperLifecycle) :
    liveHelperCount (createOffscreenDocumentIfNeeded
        (createOffscreenDocumentIfNeeded s).state).state = 1 ∧
    (createOffscreenDocumentIfNeeded
        (createOffscreenDocumentIfNeeded s).state).createdCalled = false ∧
    (createOffscreenDocumentIfNeeded HelperLifecycle.Ready).createdCalled = false := by
  cases s <;> exact ⟨rfl, rfl, rfl⟩

/-- C8: both clipboard-write entry points substitute the fixed non-empty
placeholder for an empty or undefined text — the clipboard is never set to a
truly empty string — and leave every non-empty text unchanged. -/
theorem C8_write_substitution (t : Option (List Char)) :
    clipboardWriteText t ≠ [] ∧ writeToClipboardText t ≠ [] ∧
    (∀ s : List Char, s ≠ [] →
      clipboardWriteText (some s) = s ∧ writeToClipboardText (some s) = s) := by
  refine ⟨?_, ?_, ?_⟩
  · cases t with
    | none => decide
    | some s =>
      simp only [clipboardWriteText]
      split
      · decide
      · next h => exact list_ne_nil_of_isEmpty_false (by simpa using h)
  · cases t with
    | none => decide
    | some s =>
      simp only [writeToClipboardText]
      split
      · decide
      · next h => exact list_ne_nil_of_isEmpty_false (by simpa using h)
  · intro s hs
    have h := list_isEmpty_false_of_ne_nil hs
    constructor
    · simp [clipboardWriteText, h]
    · simp [writeToClipboardText, h]

/-- C8 witness: the theorem applied at the placeholder-triggering and
pass-through inputs. -/
theorem C8_write_substitution_witness :
    clipboardWriteText (some "http://a.test\n".toList) = "http://a.test\n".toList ∧
    clipboardWriteText none ≠ [] :=
  ⟨((C8_write_substitution (some "http://a.test\n".toList)).2.2
      "http://a.test\n".toList (by decide)).1,
   (C8_write_substitution none).1⟩

/-- C10: the helper's `writeToClipboard` backs up `document.oncopy` before
installing its own handler and restores the backup after the copy command,
so the document's handler is unchanged by every write — with or without
`extendedMime`. -/
theorem C10_oncopy_restored (t : Option (List Char)) (em : Option Bool)
    (doc : OffscreenDoc) :
    (writeToClipboard t em doc).oncopy = doc.oncopy := by
  simp only [writeToClipboard, execCommandCopy]

lemma processSegment_of_noAnchor {seg : List Char}
    (h : findAnchorHref seg = none) : processSegment seg = jsTrim seg := by
  simp [processSegment, h, trim]

lemma map_processSegment_of_noAnchor (segs : List (List Char))
    (h : segs.all (fun seg => (findAnchorHref seg).isNone) = true) :
    segs.map processSegment = segs.map jsTrim := by
  induction segs with
  | nil => rfl
  | cons seg rest ih =>
    simp only [List.all_cons, Bool.and_eq_true] at h
    have h1 : findAnchorHref seg = none := Option.isNone_iff_eq_none.mp h.1
    simp only [List.map_cons, processSegment_of_noAnchor h1, ih h.2]

/-- C5: LineSplit extraction splits on newlines, rewrites HTML-anchor
segments to their captured `href` URL, trims, and drops segments that are
empty after trimming, preserving order and duplicates; on any text with no
HTML anchors it returns exactly the non-empty trimmed lines, in order, and
on an anchor line it returns the captured URL. -/
theorem C5_lineSplitExtract (s : List Char) (h : noAnchorText s = true) :
    lineSplitExtract s = nonEmptyTrimmedLines s ∧
    lineSplitExtract ("<a href=\"http://x.test\">x</a>".toList)
      = ["http://x.test".toList] := by
  constructor
  · unfold lineSplitExtract nonEmptyTrimmedLines
    rw [map_processSegment_of_noAnchor (splitNl s) h]
  · decide

/-- C5 witness: the theorem at a concrete anchor-free text with blank and
padded lines. -/
theorem C5_lineSplitExtract_witness :
    lineSplitExtract "a\n  http://b.test \n\nc".toList
      = nonEmptyTrimmedLines "a\n  http://b.test \n\nc".toList :=
  (C5_lineSplitExtract "a\n  http://b.test \n\nc".toList (by decide)).1

lemma splitNl_copyTo_text (tabs : List TabDesc)
    (h : ∀ t ∈ tabs, '\n' ∉ t.url) :
    splitNl (CopyTo.text tabs) = tabs.map (fun t => t.url) ++ [[]] := by
  induction tabs with
  | nil => rfl
  | cons t ts ih =>
    have hts : ∀ u ∈ ts, '\n' ∉ u.url := fun u hu => h u (List.mem_cons_of_mem t hu)
    have hrec : splitNl ('\n' :: CopyTo.text ts) = [] :: splitNl (CopyTo.text ts) := by
      simp [splitNl]
    have happ := splitNl_append t.url (h t (List.mem_cons_self t ts)) hrec
    rw [copyTo_text_cons, happ, ih hts]
    simp

lemma copyTo_text_endsWithNl (t : TabDesc) (ts : List TabDesc) :
    ∃ p, CopyTo.text (t :: ts) = p ++ ['\n'] := by
  induction ts generalizing t with
  | nil =>
    refine ⟨t.url, ?_⟩
    rw [copyTo_text_cons]
    rfl
  | cons t2 ts2 ih =>
    obtain ⟨p, hp⟩ := ih t2
    refine ⟨t.url ++ '\n' :: p, ?_⟩
    rw [copyTo_text_cons, hp]
    simp

/-- Spec-side: split on newline dropping the trailing empty segment. -/
def dropTrailingEmpty (ls : List (List Char)) : List (List Char) :=
  if ls.getLast? = some [] then ls.dropLast else ls

lemma dropTrailingEmpty_concat (xs : List (List Char)) :
    dropTrailingEmpty (xs ++ [[]]) = xs := by
  unfold dropTrailingEmpty
  rw [List.getLast?_concat, List.dropLast_concat]
  simp

/-- C4 counterexample: the claim fails as universally stated. A URL
containing a newline breaks the split recovery, and a URL with leading
whitespace — non-empty after trimming and anchor-free — is not returned
verbatim by the LineSplit round trip. -/
theorem C4_counterexample :
    dropTrailingEmpty (splitNl (CopyTo.text [⟨"a\nb".toList, [], 1, false⟩]))
        ≠ ([⟨"a\nb".toList, [], 1, false⟩] : List TabDesc).map (fun t => t.url) ∧
    lineSplitExtract (CopyTo.text [⟨" http://x.test".toList, [], 1, false⟩])
        ≠ ([⟨" http://x.test".toList, [], 1, false⟩] : List TabDesc).map (fun t => t.url) := by
  decide

/-- C4 (amended): for every non-empty sequence of tabs whose URLs contain
no newline, `CopyTo.text` ends with a newline and splitting on newline
(dropping the trailing empty segment) recovers exactly the URLs in order;
if moreover every URL is unchanged by trimming, non-empty, and matches no
HTML anchor, composing `CopyTo.text` with LineSplit extraction is a round
trip. -/
theorem C4_roundTrip (tabs : List TabDesc) (h0 : tabs ≠ [])
    (h1 : ∀ t ∈ tabs, '\n' ∉ t.url) :
    (∃ p, CopyTo.text tabs = p ++ ['\n']) ∧
    dropTrailingEmpty (splitNl (CopyTo.text tabs)) = tabs.map (fun t => t.url) ∧
    ((∀ t ∈ tabs, jsTrim t.url = t.url ∧ t.url ≠ [] ∧ findAnchorHref t.url = none) →
      lineSplitExtract (CopyTo.text tabs) = tabs.map (fun t => t.url)) := by
  refine ⟨?_, ?_, ?_⟩
  · match tabs, h0 with
    | t :: ts, _ => exact copyTo_text_endsWithNl t ts
  · rw [splitNl_copyTo_text tabs h1, dropTrailingEmpty_concat]
  · intro h2
    unfold lineSplitExtract
    rw [splitNl_copyTo_text tabs h1]
    rw [List.map_append, List.filter_append]
    have hnil : ([[]] : List (List Char)).map processSegment = [[]] := by decide
    rw [hnil]
    have hmap : List.map processSegment (tabs.map fun t => t.url)
        = tabs.map fun t => t.url := by
      rw [List.map_map]
      apply List.map_congr_left
      intro t ht
      obtain ⟨htrim, _, hanch⟩ := h2 t ht
      simp only [Function.comp_apply, processSegment_of_noAnchor hanch, htrim]
    rw [hmap]
    have hfilter : (tabs.map fun t => t.url).filter (fun u => !u.isEmpty)
        = tabs.map fun t => t.url := by
      apply List.filter_eq_self.mpr
      intro u hu
      obtain ⟨t, ht, rfl⟩ := List.mem_map.mp hu
      simp [list_isEmpty_false_of_ne_nil (h2 t ht).2.1]
    rw [hfilter]
    simp

/-- C4 witness: the amended theorem at two concrete well-formed tabs,
with all hypotheses discharged. -/
theorem C4_roundTrip_witness :
    lineSplitExtract (CopyTo.text
        [⟨"http://a.test".toList, [], 1, false⟩,
         ⟨"https://b.test/p".toList, [], 2, true⟩])
      = ["http://a.test".toList, "https://b.test/p".toList] := by
  have h := (C4_roundTrip
      [⟨"http://a.test".toList, [], 1, false⟩,
       ⟨"https://b.test/p".toList, [], 2, true⟩]
      (by decide) (by decide)).2.2 (by decide)
  simpa using h

/-- C1 counterexample: the empty clipboard string in LineSplit mode makes
extraction yield zero URLs, yet `Action.paste` resolves to a result without
the "No URL found in the clipboard" error — `split` never returns `null`, so
the `if (!urlList)` early exit cannot fire in that mode. -/
theorem C1_counterexample :
    lineSplitExtract [] = [] ∧
    (Action.paste false []).errorMsg = none ∧
    Action.paste false [] = ⟨0, none, []⟩ := by
  decide

/-- C1 (amended): the failed "No URL found in the clipboard" result arises
exactly when RegexExtract mode finds no match; in LineSplit mode the result
is always the success record carrying the extracted URLs, so a text with
zero surviving URLs yields success with count 0; and every success result's
count equals the number of URLs for which a tab-creation request was
issued. -/
theorem C1_paste_results (intelligent : Bool) (clip : List Char) :
    ((Action.paste true clip).errorMsg = some "No URL found in the clipboard"
        ↔ regexExtract clip = []) ∧
    Action.paste false clip
        = ⟨(lineSplitExtract clip).length, none, lineSplitExtract clip⟩ ∧
    ((Action.paste intelligent clip).errorMsg = none →
      (Action.paste intelligent clip).count
        = (Action.paste intelligent clip).opened.length) ∧
    (regexExtract clip ≠ [] → (Action.paste true clip).errorMsg = none) := by
  refine ⟨?_, rfl, ?_, ?_⟩
  · by_cases h : regexExtract clip = []
    · simp [Action.paste, h]
    · simp [Action.paste, list_isEmpty_false_of_ne_nil h, h]
  · cases intelligent with
    | false => intro _; rfl
    | true =>
      by_cases h : regexExtract clip = []
      · intro hmsg
        simp [Action.paste, h] at hmsg
      · intro _
        simp [Action.paste, list_isEmpty_false_of_ne_nil h]
  · intro h
    simp [Action.paste, list_isEmpty_false_of_ne_nil h]

/-- C1 witness: the amended theorem at a one-URL LineSplit paste and at a
no-match RegexExtract paste. -/
theorem C1_paste_results_witness :
    Action.paste false "http://a.test\n".toList
        = ⟨1, none, ["http://a.test".toList]⟩ ∧
    (Action.paste true "nothing here".toList).errorMsg
        = some "No URL found in the clipboard" := by
  constructor
  · rw [(C1_paste_results false "http://a.test\n".toList).2.1]
    decide
  · exact ((C1_paste_results true "nothing here".toList).1).mpr (by decide)

/-- C2: `Action.copy` returns `{count: tabCount}` before the asynchronous
`chrome.tabs.query` callback assigns `tabCount`, so the caller's reply
carries count 0 regardless of how many tabs were formatted: with one open
tab the callback formats one tab and reports `copied_url: 1`, while the
returned count is 0. -/
theorem C2_stale_return_count :
    (∀ (awf : Option Bool) (w : Option Int) (tabs : List TabDesc),
      (Action.copy awf w tabs).returnedCount = 0) ∧
    (Action.copy (some true) none [⟨"http://a.test/".toList, [], 1, false⟩]).returnedCount
        = 0 ∧
    (Action.copy (some true) none [⟨"http://a.test/".toList, [], 1, false⟩]).copiedUrlMessage
        = 1 ∧
    (Action.copy (some true) none [⟨"http://a.test/".toList, [], 1, false⟩]).formattedTabs.length
        = 1 := by
  refine ⟨fun awf w tabs => rfl, rfl, ?_, ?_⟩ <;> decide

/-- C9 counterexample: a copy command scoped to the single window with id 0
leaves the tab query unrestricted — `opt.window.id` is falsy — so the
formatted set contains a tab of a different window. -/
theorem C9_counterexample :
    (⟨"http://a.test/".toList, [], 1, false⟩ : TabDesc)
        ∈ (Action.copy (some false) (some 0)
            [⟨"http://a.test/".toList, [], 1, false⟩]).formattedTabs ∧
    (⟨"http://a.test/".toList, [], 1, false⟩ : TabDesc).windowId ≠ 0 := by
  decide

/-- C9 (amended): a copy requesting all windows places no window restriction
and formats every open tab; a copy requesting the single window with
non-zero id `w` restricts the query to `w` and formats exactly the tabs
whose windowId equals `w` (a zero id is falsy and leaves the query
unrestricted). -/
theorem C9_scope_selection (allTabs : List TabDesc) (window : Option Int)
    (w : Int) (hw : w ≠ 0) :
    (Action.copy (some true) window allTabs).formattedTabs = allTabs ∧
    (Action.copy (some false) (some w) allTabs).formattedTabs
        = allTabs.filter (fun t => decide (t.windowId = w)) := by
  constructor
  · rfl
  · simp [Action.copy, windowIdTruthy, hw]

/-- C9 witness: the amended theorem at a concrete two-window tab set. -/
theorem C9_scope_selection_witness :
    (Action.copy (some true) none
        [⟨"http://a.test/".toList, [], 5, false⟩,
         ⟨"http://b.test/".toList, [], 6, false⟩]).formattedTabs
      = [⟨"http://a.test/".toList, [], 5, false⟩,
         ⟨"http://b.test/".toList, [], 6, false⟩] ∧
    (Action.copy (some false) (some 5)
        [⟨"http://a.test/".toList, [], 5, false⟩,
         ⟨"http://b.test/".toList, [], 6, false⟩]).formattedTabs
      = ([⟨"http://a.test/".toList, [], 5, false⟩,
          ⟨"http://b.test/".toList, [], 6, false⟩] : List TabDesc).filter
          (fun t => decide (t.windowId = 5)) :=
  C9_scope_selection
    [⟨"http://a.test/".toList, [], 5, false⟩,
     ⟨"http://b.test/".toList, [], 6, false⟩] none 5 (by decide)

lemma startsWithCI_le_length :
    ∀ {pat s : List Char}, startsWithCI pat s = true → pat.length ≤ s.length := by
  intro pat
  induction pat with
  | nil => intro s _; simp
  | cons p ps ih =>
    intro s h
    cases s with
    | nil => simp [startsWithCI] at h
    | cons t ts =>
      simp only [startsWithCI, Bool.and_eq_true] at h
      simpa using Nat.succ_le_succ (ih h.2)

lemma startsWithCI_take_append :
    ∀ {pat s : List Char} (r : List Char), startsWithCI pat s = true →
      startsWithCI pat (s.take pat.length ++ r) = true := by
  intro pat
  induction pat with
  | nil => intro s r _; rfl
  | cons p ps ih =>
    intro s r h
    cases s with
    | nil => simp [startsWithCI] at h
    | cons t ts =>
      simp only [startsWithCI, Bool.and_eq_true] at h
      simp only [List.length_cons, List.take_succ_cons, List.cons_append,
        startsWithCI, Bool.and_eq_true]
      exact ⟨h.1, ih r h.2⟩

lemma tryScheme_some {s sch m : List Char} (h : tryScheme s sch = some m) :
    startsWithCI (sch ++ schemeSep) s = true ∧
    m = s.take (sch.length + 3)
        ++ (s.drop (sch.length + 3)).takeWhile urlChar ∧
    ((s.drop (sch.length + 3)).takeWhile urlChar).isEmpty = false := by
  simp only [tryScheme] at h
  split at h
  · next hsw =>
    split at h
    · exact absurd h (by simp)
    · next hrun =>
      refine ⟨hsw, ?_, by simpa using hrun⟩
      simpa using h.symm
  · exact absurd h (by simp)

lemma tryScheme_shape {s sch m : List Char} (h : tryScheme s sch = some m) :
    (startsWithCI (sch ++ schemeSep) m &&
      !((m.drop (sch.length + 3)).isEmpty) &&
      (m.drop (sch.length + 3)).all urlChar) = true := by
  obtain ⟨hsw, hm, hrun⟩ := tryScheme_some h
  have hlen : (sch ++ schemeSep).length = sch.length + 3 := by
    simp [schemeSep]
  have hle : sch.length + 3 ≤ s.length := by
    have := startsWithCI_le_length hsw
    rwa [hlen] at this
  have htake : (s.take (sch.length + 3)).length = sch.length + 3 := by
    simp [List.length_take, Nat.min_eq_left hle]
  have hdrop : m.drop (sch.length + 3)
      = (s.drop (sch.length + 3)).takeWhile urlChar := by
    rw [hm]
    have := List.drop_left (s.take (sch.length + 3))
      ((s.drop (sch.length + 3)).takeWhile urlChar)
    rwa [htake] at this
  rw [Bool.and_eq_true, Bool.and_eq_true]
  refine ⟨⟨?_, ?_⟩, ?_⟩
  · have := startsWithCI_take_append
      ((s.drop (sch.length + 3)).takeWhile urlChar) hsw
    rw [hlen] at this
    rw [hm]
    exact this
  · rw [hdrop]
    simp [hrun]
  · rw [hdrop]
    rw [List.all_eq_true]
    intro c hc
    exact List.mem_takeWhile_imp hc

lemma tryScheme_isInitialSeg {s sch m : List Char} (h : tryScheme s sch = some m) :
    ∃ post, s = m ++ post := by
  obtain ⟨_, hm, _⟩ := tryScheme_some h
  refine ⟨(s.drop (sch.length + 3)).dropWhile urlChar, ?_⟩
  rw [hm, List.append_assoc, List.takeWhile_append_dropWhile,
    List.take_append_drop]

lemma tryScheme_length_pos {s sch m : List Char} (h : tryScheme s sch = some m) :
    0 < m.length := by
  obtain ⟨_, hm, hrun⟩ := tryScheme_some h
  have hne : (s.drop (sch.length + 3)).takeWhile urlChar ≠ [] :=
    list_ne_nil_of_isEmpty_false hrun
  have hpos : 0 < ((s.drop (sch.length + 3)).takeWhile urlChar).length :=
    List.length_pos.mpr hne
  rw [hm, List.length_append]
  omega

lemma matchUrlAt_cases {s m : List Char} (h : matchUrlAt s = some m) :
    ∃ sch ∈ schemeAlts, tryScheme s sch = some m := by
  unfold matchUrlAt at h
  rcases h1 : tryScheme s "https".toList with _ | m1
  all_goals rw [h1] at h
  case some => exact ⟨"https".toList, by simp [schemeAlts], by rw [h1]; exact h⟩
  rcases h2 : tryScheme s "http".toList with _ | m2
  all_goals rw [h2] at h
  case some => exact ⟨"http".toList, by simp [schemeAlts], by rw [h2]; exact h⟩
  rcases h3 : tryScheme s "ftp".toList with _ | m3
  all_goals rw [h3] at h
  case some => exact ⟨"ftp".toList, by simp [schemeAlts], by rw [h3]; exact h⟩
  rcases h4 : tryScheme s "ssh".toList with _ | m4
  all_goals rw [h4] at h
  case some => exact ⟨"ssh".toList, by simp [schemeAlts], by rw [h4]; exact h⟩
  exact ⟨"mailto".toList, by simp [schemeAlts], h⟩

lemma matchUrlAt_shape {s m : List Char} (h : matchUrlAt s = some m) :
    matchesUrlPattern m = true := by
  obtain ⟨sch, hmem, hts⟩ := matchUrlAt_cases h
  unfold matchesUrlPattern
  rw [List.any_eq_true]
  exact ⟨sch, hmem, tryScheme_shape hts⟩

lemma matchUrlAt_isInitialSeg {s m : List Char} (h : matchUrlAt s = some m) :
    ∃ post, s = m ++ post := by
  obtain ⟨_, _, hts⟩ := matchUrlAt_cases h
  exact tryScheme_isInitialSeg hts

lemma substringOf_cons {m s : List Char} (c : Char) (h : SubstringOf m s) :
    SubstringOf m (c :: s) := by
  obtain ⟨pre, post, rfl⟩ := h
  exact ⟨c :: pre, post, rfl⟩

lemma substringOf_drop {m s : List Char} (n : Nat)
    (h : SubstringOf m (s.drop n)) : SubstringOf m s := by
  obtain ⟨pre, post, hdec⟩ := h
  refine ⟨s.take n ++ pre, post, ?_⟩
  conv_lhs => rw [← List.take_append_drop n s]
  rw [hdec]
  simp [List.append_assoc]

lemma regexScan_mem :
    ∀ (fuel : Nat) {s m : List Char}, m ∈ regexScan fuel s →
      matchesUrlPattern m = true ∧ SubstringOf m s := by
  intro fuel
  induction fuel with
  | zero => intro s m h; simp [regexScan] at h
  | succ fuel ih =>
    intro s m h
    unfold regexScan at h
    rcases hm : matchUrlAt s with _ | m'
    all_goals rw [hm] at h
    all_goals simp only [Option.elim] at h
    · cases s with
      | nil => simp at h
      | cons c cs =>
        obtain ⟨hpat, hsub⟩ := ih h
        exact ⟨hpat, substringOf_cons c hsub⟩
    · rcases List.mem_cons.mp h with rfl | htail
      · obtain ⟨post, hpost⟩ := matchUrlAt_isInitialSeg hm
        exact ⟨matchUrlAt_shape hm, [], post, by simpa using hpost⟩
      · obtain ⟨hpat, hsub⟩ := ih htail
        exact ⟨hpat, substringOf_drop m'.length hsub⟩

/-- C6: every string RegexExtract returns matches the URL pattern — one of
the schemes `http`, `https`, `ftp`, `ssh`, `mailto`, then `://`, then a
non-empty run of permitted URL characters — and occurs in the input; the
scan is the source's left-to-right non-overlapping global match, and on
`"visit http://a.test and https://b.test/path"` it yields exactly
`["http://a.test", "https://b.test/path"]`. -/
theorem C6_regexExtract (s m : List Char) (h : m ∈ regexExtract s) :
    matchesUrlPattern m = true ∧ SubstringOf m s ∧
    regexExtract "visit http://a.test and https://b.test/path".toList
      = ["http://a.test".toList, "https://b.test/path".toList] := by
  obtain ⟨hpat, hsub⟩ := regexScan_mem s.length h
  exact ⟨hpat, hsub, by decide⟩

/-- C6 witness: the theorem at the spec's own example input and its first
match. -/
theorem C6_regexExtract_witness :
    matchesUrlPattern "http://a.test".toList = true ∧
    SubstringOf "http://a.test".toList
      "visit http://a.test and https://b.test/path".toList ∧
    regexExtract "visit http://a.test and https://b.test/path".toList
      = ["http://a.test".toList, "https://b.test/path".toList] :=
  C6_regexExtract "visit http://a.test and https://b.test/path".toList
    "http://a.test".toList (by decide)

end CopyUrlsChrome
